import Mathlib

/-!
Shallow embedding of `src/vector_store.py` (class `VectorStoreManager`) of the
rag-pdf-chatbot repository, together with theorems about its behaviour.

The embedding models:
* `sha256hex` — `hashlib.sha256(content).hexdigest()` used by `_get_file_hash`,
  implemented faithfully (FIPS 180-4) over byte lists, with 32-bit words as
  `Nat` reduced by `% 2^32`;
* the persisted cache `processed_files.json` (`_load_cache` / `_save_cache`);
* the Chroma store as a list of records with ids and metadata, with
  `_remove_existing_documents`, `add_documents`, `delete` and `get`;
* the public operations `process_document`, `get_file_info`, `clear_all`.
-/

namespace VectorStore

/-- Reduce a natural number to a 32-bit word, as Python's fixed-width
arithmetic inside `hashlib` does implicitly. -/
def w32 (n : Nat) : Nat := n % 4294967296

/-- Right rotation of a 32-bit word by `n` bits. -/
def rotr (n x : Nat) : Nat := w32 ((x >>> n) ||| (x <<< (32 - n)))

/-- Bitwise complement within 32 bits. -/
def bnot32 (x : Nat) : Nat := x ^^^ 4294967295

/-- SHA-256 `Ch` function. -/
def ch (x y z : Nat) : Nat := (x &&& y) ^^^ (bnot32 x &&& z)

/-- SHA-256 `Maj` function. -/
def maj (x y z : Nat) : Nat := (x &&& y) ^^^ (x &&& z) ^^^ (y &&& z)

/-- SHA-256 big sigma 0. -/
def bsig0 (x : Nat) : Nat := rotr 2 x ^^^ rotr 13 x ^^^ rotr 22 x

/-- SHA-256 big sigma 1. -/
def bsig1 (x : Nat) : Nat := rotr 6 x ^^^ rotr 11 x ^^^ rotr 25 x

/-- SHA-256 small sigma 0. -/
def ssig0 (x : Nat) : Nat := rotr 7 x ^^^ rotr 18 x ^^^ (x >>> 3)

/-- SHA-256 small sigma 1. -/
def ssig1 (x : Nat) : Nat := rotr 17 x ^^^ rotr 19 x ^^^ (x >>> 10)

/-- The 64 SHA-256 round constants (FIPS 180-4 §4.2.2), written in decimal. -/
def K : List Nat :=
  [1116352408, 1899447441, 3049323471, 3921009573,
   961987163, 1508970993, 2453635748, 2870763221,
   3624381080, 310598401, 607225278, 1426881987,
   1925078388, 2162078206, 2614888103, 3248222580,
   3835390401, 4022224774, 264347078, 604807628,
   770255983, 1249150122, 1555081692, 1996064986,
   2554220882, 2821834349, 2952996808, 3210313671,
   3336571891, 3584528711, 113926993, 338241895,
   666307205, 773529912, 1294757372, 1396182291,
   1695183700, 1986661051, 2177026350, 2456956037,
   2730485921, 2820302411, 3259730800, 3345764771,
   3516065817, 3600352804, 4094571909, 275423344,
   430227734, 506948616, 659060556, 883997877,
   958139571, 1322822218, 1537002063, 1747873779,
   1955562222, 2024104815, 2227730452, 2361852424,
   2428436474, 2756734187, 3204031479, 3329325298]

/-- Big-endian 8-byte encoding of a (bit-length) counter. -/
def be64 (n : Nat) : List Nat :=
  [n >>> 56 % 256, n >>> 48 % 256, n >>> 40 % 256, n >>> 32 % 256,
   n >>> 24 % 256, n >>> 16 % 256, n >>> 8 % 256, n % 256]

/-- SHA-256 padding: append `0x80`, zeros to 56 mod 64, then the 64-bit
big-endian bit length. -/
def padBytes (msg : List Nat) : List Nat :=
  let L := msg.length
  let k := (119 - L % 64) % 64
  msg ++ [0x80] ++ List.replicate k 0 ++ be64 (8 * L)

/-- Split a byte list into 64-byte blocks. -/
def toBlocks (l : List Nat) : List (List Nat) :=
  if h : l = [] then []
  else l.take 64 :: toBlocks (l.drop 64)
termination_by l.length
decreasing_by
  simp only [List.length_drop]
  have hp : 0 < l.length := List.length_pos.mpr h
  omega

/-- The 16 initial 32-bit message-schedule words of a 64-byte block
(big-endian packing of 4 bytes each). -/
def blockWords (b : List Nat) : List Nat :=
  (List.range 16).map fun i =>
    (b.getD (4 * i) 0 % 256) * 16777216 + (b.getD (4 * i + 1) 0 % 256) * 65536 +
    (b.getD (4 * i + 2) 0 % 256) * 256 + b.getD (4 * i + 3) 0 % 256

/-- Extend the message schedule by `t` further words. -/
def extendW (ws : List Nat) : Nat → List Nat
  | 0 => ws
  | t + 1 =>
    extendW (ws ++ [w32 (ssig1 (ws.getD (ws.length - 2) 0) + ws.getD (ws.length - 7) 0 +
      ssig0 (ws.getD (ws.length - 15) 0) + ws.getD (ws.length - 16) 0)]) t

/-- The eight 32-bit words of a SHA-256 hash state. -/
structure Hash8 where
  a : Nat
  b : Nat
  c : Nat
  d : Nat
  e : Nat
  f : Nat
  g : Nat
  h : Nat
deriving Repr, DecidableEq

/-- One SHA-256 compression round. -/
def round (w k : Nat) (s : Hash8) : Hash8 :=
  let T1 := w32 (s.h + bsig1 s.e + ch s.e s.f s.g + k + w)
  let T2 := w32 (bsig0 s.a + maj s.a s.b s.c)
  ⟨w32 (T1 + T2), s.a, s.b, s.c, w32 (s.d + T1), s.e, s.f, s.g⟩

/-- Compress one 64-byte block into the running hash state. -/
def compressBlock (s : Hash8) (blk : List Nat) : Hash8 :=
  let ws := extendW (blockWords blk) 48
  let t := (List.range 64).foldl (fun st i => round (ws.getD i 0) (K.getD i 0) st) s
  ⟨w32 (s.a + t.a), w32 (s.b + t.b), w32 (s.c + t.c), w32 (s.d + t.d),
   w32 (s.e + t.e), w32 (s.f + t.f), w32 (s.g + t.g), w32 (s.h + t.h)⟩

/-- SHA-256 initial hash value (FIPS 180-4 §5.3.3), written in decimal. -/
def initH : Hash8 :=
  ⟨1779033703, 3144134277, 1013904242, 2773480762,
   1359893119, 2600822924, 528734635, 1541459225⟩

/-- SHA-256 of a byte list, as eight 32-bit words. -/
def sha256 (msg : List Nat) : Hash8 :=
  (toBlocks (padBytes msg)).foldl compressBlock initH

/-- Lower-case hex digit for a value below 16, as Python's `hexdigest`. -/
def hexChar (n : Nat) : Char :=
  if n < 10 then Char.ofNat (48 + n) else Char.ofNat (87 + n)

/-- Eight lower-case hex digits of a 32-bit word, most significant first. -/
def wordHex (w : Nat) : List Char :=
  [hexChar (w / 268435456 % 16), hexChar (w / 16777216 % 16),
   hexChar (w / 1048576 % 16), hexChar (w / 65536 % 16),
   hexChar (w / 4096 % 16), hexChar (w / 256 % 16),
   hexChar (w / 16 % 16), hexChar (w % 16)]

/-- `hashlib.sha256(content).hexdigest()`: the 64-character lower-case hex
encoding of the 256-bit digest. -/
def sha256hex (msg : List Nat) : String :=
  let s := sha256 msg
  ⟨wordHex s.a ++ wordHex s.b ++ wordHex s.c ++ wordHex s.d ++
   wordHex s.e ++ wordHex s.f ++ wordHex s.g ++ wordHex s.h⟩

/-! ## Data model

Chunk metadata: the manager reads `metadata.get('source_file')` and writes
`metadata['file_hash']` and `metadata['source_file']`; other keys set by the
upstream chunker are untouched and kept abstract as `rest`. -/

structure Metadata where
  source_file : Option String
  file_hash : Option String
  rest : List (String × String)
deriving Repr, DecidableEq

/-- A langchain `Document`: page content plus metadata. -/
structure Doc where
  text : String
  metadata : Metadata
deriving Repr, DecidableEq

/-- A record held by the Chroma store: an id and the stored document.
Chroma also owns an embedding vector for it, which the manager never reads;
it is irrelevant to the claims and omitted. -/
structure Record where
  id : Nat
  doc : Doc
deriving Repr, DecidableEq

/-- One value of the `processed_files` cache:
`{'hash': ..., 'num_chunks': ..., 'last_processed': ...}`. -/
structure CacheRecord where
  hash : String
  num_chunks : Nat
  last_processed : String
deriving Repr, DecidableEq

/-- The in-memory `processed_files` mapping, path to record.  Python dicts
hold at most one value per key; an association list updated in place keeps
that shape. -/
def CacheMap : Type := List (String × CacheRecord)

instance : DecidableEq CacheMap := by
  unfold CacheMap
  infer_instance

/-- Dict lookup `m.get(k)`. -/
def getEntry (m : CacheMap) (k : String) : Option CacheRecord :=
  match m with
  | [] => none
  | (k', v) :: rest => if k' = k then some v else getEntry rest k

/-- Dict assignment `m[k] = v`: replaces the entry if the key is present,
appends it otherwise. -/
def setEntry (m : CacheMap) (k : String) (v : CacheRecord) : CacheMap :=
  match m with
  | [] => [(k, v)]
  | (k', v') :: rest => if k' = k then (k, v) :: rest else (k', v') :: setEntry rest k v

/-- The persisted `processed_files.json`: either a parsable serialisation of a
cache map, or corrupt (present but unparsable by `json.load`). -/
inductive CacheFile where
  | valid (m : CacheMap)
  | corrupt
deriving DecidableEq

/-- The whole mutable state of a `VectorStoreManager`: the Chroma store
contents, a fresh-id counter for ids Chroma assigns on insert, the in-memory
`processed_files` dict, and the persisted cache file (`none` when absent). -/
structure MState where
  store : List Record
  nextId : Nat
  processed_files : CacheMap
  cache_file : Option CacheFile
deriving DecidableEq

/-! ## Cache persistence: `_load_cache` / `_save_cache` -/

/-- Errors surfaced by the embedded operations. -/
inductive CacheError where
  | CacheCorruptionError
deriving Repr, DecidableEq

/-- `_load_cache`: when the cache file exists it is parsed with `json.load`
(raising on unparsable contents); when absent, `processed_files` is set to the
empty dict and `_save_cache` creates the file.  Returns the in-memory mapping
together with the cache file after the call. -/
def load_cache (file : Option CacheFile) : Except CacheError (CacheMap × Option CacheFile) :=
  match file with
  | some (CacheFile.valid m) => .ok (m, some (CacheFile.valid m))
  | some CacheFile.corrupt => .error CacheError.CacheCorruptionError
  | none => .ok ([], some (CacheFile.valid []))

/-- `_save_cache`: write the in-memory dict back to `processed_files.json`. -/
def save_cache (st : MState) : MState :=
  { st with cache_file := some (CacheFile.valid st.processed_files) }

/-! ## `_remove_existing_documents` -/

/-- The value of `self.vector_db.get()`: Chroma returns a dict; the code
defends against a missing dict or missing `'ids'`/`'metadatas'` keys, so both
fields are optional here. -/
structure GetResult where
  ids : Option (List Nat)
  metadatas : Option (List Metadata)
deriving DecidableEq

/-- The `get()` result an actual store produces: ids and metadatas of all
records, aligned. -/
def storeGet (store : List Record) : GetResult :=
  { ids := some (store.map fun r => r.id),
    metadatas := some (store.map fun r => r.doc.metadata) }

/-- `ids_to_delete`: ids zipped with metadatas, keeping ids whose metadata has
`source_file == file_path`. -/
def idsToDelete (file_path : String) (ids : List Nat) (mds : List Metadata) : List Nat :=
  (ids.zip mds).filterMap fun p =>
    if p.2.source_file = some file_path then some p.1 else none

/-- What `_remove_existing_documents` does to the store: either nothing, or a
`delete` call with a list of ids. -/
inductive RemoveAction where
  | noop
  | delete (ids : List Nat)
deriving DecidableEq

/-- The control flow of `_remove_existing_documents` on a `get()` result:
return early when the result is missing or lacks the `'ids'` or `'metadatas'`
keys; compute `ids_to_delete`; call `delete` only when that list is
non-empty. -/
def removeAction (file_path : String) (result : Option GetResult) : RemoveAction :=
  match result with
  | none => .noop
  | some r =>
    match r.ids, r.metadatas with
    | some ids, some mds =>
      let toDel := idsToDelete file_path ids mds
      if toDel.isEmpty then .noop else .delete toDel
    | _, _ => .noop

/-- `self.vector_db.delete(ids)`: remove from the store every record whose id
is listed. -/
def deleteIds (store : List Record) (ids : List Nat) : List Record :=
  store.filter fun r => decide (r.id ∉ ids)

/-- Apply a removal action to the store. -/
def applyAction (store : List Record) : RemoveAction → List Record
  | .noop => store
  | .delete ids => deleteIds store ids

/-- `_remove_existing_documents(file_path)` acting on the store contents. -/
def remove_existing_documents (file_path : String) (store : List Record) : List Record :=
  applyAction store (removeAction file_path (some (storeGet store)))

/-! ## `process_document` -/

/-- Errors raised out of `process_document`. -/
inductive ProcError where
  | FileAccessError
deriving Repr, DecidableEq

/-- The file system: path to raw byte content, `none` when unreadable. -/
def FS : Type := String → Option (List Nat)

/-- `_get_file_hash`: open the file, read its bytes, hash them.  Raises when
the file cannot be read. -/
def get_file_hash (fs : FS) (file_path : String) : Except ProcError String :=
  match fs file_path with
  | none => .error ProcError.FileAccessError
  | some content => .ok (sha256hex content)

/-- `file_info.get('hash') == current_hash` where
`file_info = self.processed_files.get(file_path, {})`. -/
def cacheHit (m : CacheMap) (file_path current_hash : String) : Bool :=
  match getEntry m file_path with
  | some r => decide (r.hash = current_hash)
  | none => false

/-- Stamp a document: `doc.metadata['file_hash'] = h`;
`doc.metadata['source_file'] = file_path`. -/
def stampDoc (file_path current_hash : String) (d : Doc) : Doc :=
  { d with metadata :=
      { d.metadata with file_hash := some current_hash, source_file := some file_path } }

/-- Records created by `add_documents`, with fresh ids starting at `start`.
Chroma generates a fresh opaque id per inserted document; a counter models
that. -/
def newRecords (start : Nat) : List Doc → List Record
  | [] => []
  | d :: ds => ⟨start, d⟩ :: newRecords (start + 1) ds

/-- `self.vector_db.add_documents(docs)`. -/
def add_documents (st : MState) (docs : List Doc) : MState :=
  { st with store := st.store ++ newRecords st.nextId docs,
            nextId := st.nextId + docs.length }

/-- `process_document(file_path, docs)`: hash the file; if the cached hash
matches, return `False` without touching anything; otherwise remove existing
records for the path, stamp and insert the new documents, update the cache
entry and persist it, and return `True`. -/
def process_document (fs : FS) (st : MState) (file_path : String) (docs : List Doc)
    (now : String) : Except ProcError (Bool × MState) :=
  match fs file_path with
  | none => .error ProcError.FileAccessError
  | some content =>
    let current_hash := sha256hex content
    if cacheHit st.processed_files file_path current_hash then
      .ok (false, st)
    else
      let st1 := { st with store := remove_existing_documents file_path st.store }
      let st2 := add_documents st1 (docs.map (stampDoc file_path current_hash))
      let newEntry : CacheRecord := ⟨current_hash, docs.length, now⟩
      let st3 := { st2 with processed_files := setEntry st2.processed_files file_path newEntry }
      .ok (true, save_cache st3)

/-! ## `get_file_info` and `clear_all` -/

/-- `get_file_info(file_path)`: `self.processed_files.get(file_path, {})`.
The Python method returns the record dict, or `{}` when the path is unknown;
the empty-dict default is rendered as `none`.  The pair records that the call
leaves the manager state as it was. -/
def get_file_info (st : MState) (file_path : String) : Option CacheRecord × MState :=
  (getEntry st.processed_files file_path, st)

/-- `clear_all()`: `self.vector_db.delete(self.vector_db.get()['ids'])`, then
reset `processed_files` to `{}` and save the cache. -/
def clear_all (st : MState) : MState :=
  let cleared := deleteIds st.store (st.store.map fun r => r.id)
  { store := cleared, nextId := st.nextId, processed_files := [],
    cache_file := some (CacheFile.valid []) }

/-! ## Derived notions and concrete fixtures -/

/-- The records with a given `source_file` in a store. -/
def recordsFor (file_path : String) (store : List Record) : List Record :=
  store.filter fun r => decide (r.doc.metadata.source_file = some file_path)

/-- The state produced by the replace path of `process_document`. -/
def replacedState (st : MState) (file_path : String) (docs : List Doc) (now : String)
    (current_hash : String) : MState :=
  { store := remove_existing_documents file_path st.store ++
      newRecords st.nextId (docs.map (stampDoc file_path current_hash)),
    nextId := st.nextId + docs.length,
    processed_files := setEntry st.processed_files file_path ⟨current_hash, docs.length, now⟩,
    cache_file := some (CacheFile.valid
      (setEntry st.processed_files file_path ⟨current_hash, docs.length, now⟩)) }

/-- The sixteen characters `hexdigest` may emit. -/
def hexDigitChars : List Char := "0123456789abcdef".data

/-- A file system on which every path reads as the empty byte string. -/
def fsEmpty : FS := fun _ => some []

/-- A chunk metadata value carrying none of the manager's keys. -/
def mdPlain : Metadata := ⟨none, none, []⟩

/-- A sample chunk. -/
def docPlain : Doc := ⟨"hello", mdPlain⟩

/-- A freshly constructed manager state: empty store, empty cache. -/
def st0 : MState := ⟨[], 0, [], none⟩

/-- A state whose cache already records `"a.txt"` at the hash of its current
(empty) content. -/
def stHit : MState := ⟨[], 0, [("a.txt", ⟨sha256hex [], 0, "t0"⟩)], none⟩

/-- A stale record for `"a.txt"` carrying an old fingerprint. -/
def recA : Record := ⟨0, ⟨"old", ⟨some "a.txt", some "H1", []⟩⟩⟩

/-- A record belonging to a different path. -/
def recB : Record := ⟨1, ⟨"other", ⟨some "z.txt", some "H2", []⟩⟩⟩

/-- A state holding a stale record for `"a.txt"` next to an unrelated one,
with an empty cache. -/
def stWith : MState := ⟨[recA, recB], 2, [], none⟩

/-! ## Helper lemmas -/

theorem getEntry_setEntry_self (m : CacheMap) (k : String) (v : CacheRecord) :
    getEntry (setEntry m k v) k = some v := by
  induction m with
  | nil => simp [setEntry, getEntry]
  | cons p rest ih =>
    by_cases hk : p.1 = k
    · simp [setEntry, hk, getEntry]
    · simp [setEntry, hk, getEntry, ih]

theorem idsToDelete_store (file_path : String) (store : List Record) :
    idsToDelete file_path (store.map fun r => r.id) (store.map fun r => r.doc.metadata) =
      store.filterMap (fun r =>
        if r.doc.metadata.source_file = some file_path then some r.id else none) := by
  induction store with
  | nil => rfl
  | cons r rest ih =>
    simp only [List.map_cons, idsToDelete, List.zip_cons_cons, List.filterMap_cons]
    by_cases hs : r.doc.metadata.source_file = some file_path
    · simpa [hs, idsToDelete] using congrArg (r.id :: ·) (by simpa [idsToDelete] using ih)
    · simpa [hs, idsToDelete] using ih

theorem mem_idsToDelete_store (file_path : String) (store : List Record) (r : Record)
    (hr : r ∈ store) (hs : r.doc.metadata.source_file = some file_path) :
    r.id ∈ idsToDelete file_path (store.map fun t => t.id)
      (store.map fun t => t.doc.metadata) := by
  rw [idsToDelete_store]
  exact List.mem_filterMap.mpr ⟨r, hr, by simp [hs]⟩

theorem idsToDelete_store_eq_nil (file_path : String) (store : List Record)
    (h : idsToDelete file_path (store.map fun t => t.id)
      (store.map fun t => t.doc.metadata) = []) :
    ∀ r ∈ store, r.doc.metadata.source_file ≠ some file_path := by
  intro r hr hs
  have := mem_idsToDelete_store file_path store r hr hs
  simp [h] at this

/-- After `_remove_existing_documents`, no record for the path remains. -/
theorem remove_existing_documents_no_source (file_path : String) (store : List Record) :
    ∀ r ∈ remove_existing_documents file_path store,
      r.doc.metadata.source_file ≠ some file_path := by
  intro r hr hs
  unfold remove_existing_documents removeAction storeGet at hr
  simp only at hr
  by_cases hnil : idsToDelete file_path (store.map fun t => t.id)
      (store.map fun t => t.doc.metadata) = []
  · rw [if_pos (by simpa [List.isEmpty_iff] using hnil)] at hr
    exact idsToDelete_store_eq_nil file_path store hnil r hr hs
  · rw [if_neg (by simpa [List.isEmpty_iff] using hnil)] at hr
    simp only [applyAction, deleteIds, List.mem_filter, decide_eq_true_eq] at hr
    exact hr.2 (mem_idsToDelete_store file_path store r hr.1 hs)

/-- `_remove_existing_documents` only drops records; every survivor was in the
store before. -/
theorem remove_existing_documents_subset (file_path : String) (store : List Record) :
    ∀ r ∈ remove_existing_documents file_path store, r ∈ store := by
  intro r hr
  unfold remove_existing_documents removeAction storeGet at hr
  simp only at hr
  by_cases hnil : (idsToDelete file_path (store.map fun t => t.id)
      (store.map fun t => t.doc.metadata)).isEmpty
  · rwa [if_pos hnil] at hr
  · rw [if_neg hnil] at hr
    simp only [applyAction, deleteIds, List.mem_filter] at hr
    exact hr.1

/-- When the store holds no record for the path, `_remove_existing_documents`
is the identity (the `delete` call is skipped). -/
theorem remove_existing_documents_of_absent (file_path : String) (store : List Record)
    (h : ∀ r ∈ store, r.doc.metadata.source_file ≠ some file_path) :
    remove_existing_documents file_path store = store := by
  unfold remove_existing_documents removeAction storeGet
  simp only
  have hnil : idsToDelete file_path (store.map fun t => t.id)
      (store.map fun t => t.doc.metadata) = [] := by
    rw [idsToDelete_store]
    refine List.filterMap_eq_nil_iff.mpr ?_
    intro r hr
    simp [h r hr]
  rw [if_pos (by simpa [List.isEmpty_iff] using hnil)]
  rfl

theorem mem_newRecords (start : Nat) (docs : List Doc) (r : Record)
    (hr : r ∈ newRecords start docs) : r.doc ∈ docs := by
  induction docs generalizing start with
  | nil => simp [newRecords] at hr
  | cons d ds ih =>
    simp only [newRecords, List.mem_cons] at hr ⊢
    rcases hr with h | h
    · exact Or.inl (by simp [h])
    · exact Or.inr (ih (start + 1) h)

/-- `process_document` on a cache hit: the fast path returns `False` with the
state untouched. -/
theorem process_document_hit (fs : FS) (st : MState) (file_path : String)
    (docs : List Doc) (now : String) (content : List Nat)
    (hfs : fs file_path = some content)
    (hh : cacheHit st.processed_files file_path (sha256hex content) = true) :
    process_document fs st file_path docs now = .ok (false, st) := by
  simp [process_document, hfs, hh]

/-- `process_document` on a cache miss: the replace path returns `True` and
the replaced state. -/
theorem process_document_miss (fs : FS) (st : MState) (file_path : String)
    (docs : List Doc) (now : String) (content : List Nat)
    (hfs : fs file_path = some content)
    (hm : cacheHit st.processed_files file_path (sha256hex content) = false) :
    process_document fs st file_path docs now =
      .ok (true, replacedState st file_path docs now (sha256hex content)) := by
  simp [process_document, hfs, hm, add_documents, save_cache, replacedState]

theorem cacheHit_true_of (m : CacheMap) (file_path h : String) (r : CacheRecord)
    (hr : getEntry m file_path = some r) (hh : r.hash = h) :
    cacheHit m file_path h = true := by
  simp [cacheHit, hr, hh]

theorem cacheHit_setEntry_self (m : CacheMap) (file_path h : String) (n : Nat) (t : String) :
    cacheHit (setEntry m file_path ⟨h, n, t⟩) file_path h = true := by
  simp [cacheHit, getEntry_setEntry_self]

/-- A `process_document` call that returned `True` ended in the replaced
state. -/
theorem process_document_ok_true (fs : FS) (st : MState) (file_path : String)
    (docs : List Doc) (now : String) (content : List Nat) (st' : MState)
    (hfs : fs file_path = some content)
    (hres : process_document fs st file_path docs now = .ok (true, st')) :
    st' = replacedState st file_path docs now (sha256hex content) := by
  cases hch : cacheHit st.processed_files file_path (sha256hex content) with
  | true =>
    rw [process_document_hit fs st file_path docs now content hfs hch] at hres
    simp at hres
  | false =>
    rw [process_document_miss fs st file_path docs now content hfs hch] at hres
    simpa using hres.symm

theorem clear_all_store_nil (st : MState) : (clear_all st).store = [] := by
  simp only [clear_all, deleteIds]
  refine List.filter_eq_nil_iff.mpr ?_
  intro r hr
  simp [List.mem_map_of_mem _ hr]

theorem idsToDelete_eq_nil_of_no_match (file_path : String) (ids : List Nat)
    (mds : List Metadata) (h : ∀ md ∈ mds, md.source_file ≠ some file_path) :
    idsToDelete file_path ids mds = [] := by
  refine List.filterMap_eq_nil_iff.mpr ?_
  intro p hp
  obtain ⟨a, b⟩ := p
  have hb := (List.of_mem_zip hp).2
  simp [h b hb]

theorem hexChar_mem_hexDigitChars (n : Nat) (hn : n < 16) : hexChar n ∈ hexDigitChars := by
  interval_cases n <;> decide

theorem mem_wordHex (w : Nat) (c : Char) (hc : c ∈ wordHex w) : c ∈ hexDigitChars := by
  simp only [wordHex, List.mem_cons, List.not_mem_nil, or_false] at hc
  rcases hc with h | h | h | h | h | h | h | h <;>
    (subst h; exact hexChar_mem_hexDigitChars _ (Nat.mod_lt _ (by decide)))

theorem sha256hex_length (msg : List Nat) : (sha256hex msg).length = 64 := by
  simp [sha256hex, String.length, wordHex]

theorem mem_sha256hex (msg : List Nat) (c : Char) (hc : c ∈ (sha256hex msg).data) :
    c ∈ hexDigitChars := by
  simp only [sha256hex, List.mem_append] at hc
  rcases hc with (((((((h | h) | h) | h) | h) | h) | h) | h) <;> exact mem_wordHex _ _ h

/-- In the replaced state, no record for the path carries anything but the
new hash: the survivors of the removal are not for the path, and the freshly
inserted records are stamped with the new hash. -/
theorem replacedState_no_stale (st : MState) (file_path : String) (docs : List Doc)
    (now h : String) :
    ∀ r ∈ (replacedState st file_path docs now h).store,
      r.doc.metadata.source_file = some file_path →
      r.doc.metadata.file_hash = some h := by
  intro r hr hsrc
  simp only [replacedState, List.mem_append] at hr
  rcases hr with hr | hr
  · exact absurd hsrc (remove_existing_documents_no_source file_path st.store r hr)
  · have hd := mem_newRecords _ _ _ hr
    simp only [List.mem_map] at hd
    obtain ⟨d, _, hd2⟩ := hd
    rw [← hd2]
    simp [stampDoc]

/-! ## Claims -/

/-- Claim C1: for every path and chunk list, if the cache holds a record for
the path whose fingerprint equals the freshly computed hash of the path's
bytes, `process_document` returns `False` and mutates nothing: the store
records for the path, the in-memory cache mapping, and the persisted cache
file are all unchanged. -/
theorem C1_unchanged_no_mutation (fs : FS) (st : MState) (file_path : String)
    (docs : List Doc) (now : String) (content : List Nat) (r : CacheRecord)
    (hfs : fs file_path = some content)
    (hr : getEntry st.processed_files file_path = some r)
    (hh : r.hash = sha256hex content) :
    ∃ st', process_document fs st file_path docs now = Except.ok (false, st') ∧
      recordsFor file_path st'.store = recordsFor file_path st.store ∧
      st'.processed_files = st.processed_files ∧
      st'.cache_file = st.cache_file :=
  ⟨st, process_document_hit fs st file_path docs now content hfs
    (cacheHit_true_of _ _ _ r hr hh), rfl, rfl, rfl⟩

/-- Concrete instance of C1: a cached empty file is skipped untouched. -/
theorem C1_witness :
    fsEmpty "a.txt" = some [] ∧
    getEntry stHit.processed_files "a.txt" = some ⟨sha256hex [], 0, "t0"⟩ ∧
    (⟨sha256hex [], 0, "t0"⟩ : CacheRecord).hash = sha256hex [] ∧
    (∃ st', process_document fsEmpty stHit "a.txt" [docPlain] "t1" = Except.ok (false, st') ∧
      recordsFor "a.txt" st'.store = recordsFor "a.txt" stHit.store ∧
      st'.processed_files = stHit.processed_files ∧
      st'.cache_file = stHit.cache_file) :=
  ⟨rfl, rfl, rfl,
    C1_unchanged_no_mutation fsEmpty stHit "a.txt" [docPlain] "t1" []
      ⟨sha256hex [], 0, "t0"⟩ rfl rfl rfl⟩

/-- Claim C2: after a `process_document` call returning `True`, every store
record whose `source_file` is the path carries `file_hash` equal to the hash
of the path's bytes, and the cache entry for the path is
`{hash, num_chunks = docs.length, last_processed = now}` and has been
persisted. -/
theorem C2_replace_consistent (fs : FS) (st : MState) (file_path : String)
    (docs : List Doc) (now : String) (content : List Nat) (st' : MState)
    (hfs : fs file_path = some content)
    (hres : process_document fs st file_path docs now = Except.ok (true, st')) :
    (∀ r ∈ st'.store, r.doc.metadata.source_file = some file_path →
      r.doc.metadata.file_hash = some (sha256hex content)) ∧
    getEntry st'.processed_files file_path = some ⟨sha256hex content, docs.length, now⟩ ∧
    st'.cache_file = some (CacheFile.valid st'.processed_files) := by
  have hst := process_document_ok_true fs st file_path docs now content st' hfs hres
  subst hst
  exact ⟨replacedState_no_stale st file_path docs now _,
    getEntry_setEntry_self _ _ _, rfl⟩

/-- Concrete instance of C2: first-time ingestion of one chunk. -/
theorem C2_witness :
    (∀ r ∈ (replacedState st0 "b.txt" [docPlain] "t1" (sha256hex [])).store,
      r.doc.metadata.source_file = some "b.txt" →
      r.doc.metadata.file_hash = some (sha256hex [])) ∧
    getEntry (replacedState st0 "b.txt" [docPlain] "t1" (sha256hex [])).processed_files
      "b.txt" = some ⟨sha256hex [], 1, "t1"⟩ ∧
    (replacedState st0 "b.txt" [docPlain] "t1" (sha256hex [])).cache_file =
      some (CacheFile.valid
        (replacedState st0 "b.txt" [docPlain] "t1" (sha256hex [])).processed_files) :=
  C2_replace_consistent fsEmpty st0 "b.txt" [docPlain] "t1" [] _ rfl
    (process_document_miss fsEmpty st0 "b.txt" [docPlain] "t1" [] rfl rfl)

/-- Claim C3 fails as stated: at a state whose cache already records the
current hash of the path, the first of the two calls returns `False`, never
`True`.  The unchanged content alone does not make the first call a
replacement. -/
theorem C3_counterexample :
    process_document fsEmpty stHit "a.txt" [docPlain] "t1" = Except.ok (false, stHit) ∧
    ∀ st', process_document fsEmpty stHit "a.txt" [docPlain] "t1" ≠ Except.ok (true, st') := by
  have h : process_document fsEmpty stHit "a.txt" [docPlain] "t1" = Except.ok (false, stHit) :=
    process_document_hit fsEmpty stHit "a.txt" [docPlain] "t1" [] rfl
      (cacheHit_true_of _ _ _ ⟨sha256hex [], 0, "t0"⟩ rfl rfl)
  refine ⟨h, fun st' hc => ?_⟩
  rw [h] at hc
  simp at hc

/-- Claim C3 (amended): when the cache does not already record the current
hash of the path, processing the same unchanged content twice yields `True`
then `False`, and the count of store records for the path after the second
call equals the count after the first call. -/
theorem C3_idempotence (fs : FS) (st : MState) (file_path : String)
    (docs : List Doc) (now1 now2 : String) (content : List Nat)
    (hfs : fs file_path = some content)
    (hmiss : cacheHit st.processed_files file_path (sha256hex content) = false) :
    ∃ st1 st2,
      process_document fs st file_path docs now1 = Except.ok (true, st1) ∧
      process_document fs st1 file_path docs now2 = Except.ok (false, st2) ∧
      (recordsFor file_path st2.store).length = (recordsFor file_path st1.store).length := by
  refine ⟨replacedState st file_path docs now1 (sha256hex content),
    replacedState st file_path docs now1 (sha256hex content),
    process_document_miss fs st file_path docs now1 content hfs hmiss,
    process_document_hit fs _ file_path docs now2 content hfs ?_, rfl⟩
  simpa [replacedState] using
    cacheHit_setEntry_self st.processed_files file_path (sha256hex content) docs.length now1

/-- Concrete instance of the amended C3: a fresh file processed twice. -/
theorem C3_witness :
    fsEmpty "c.txt" = some [] ∧
    cacheHit st0.processed_files "c.txt" (sha256hex []) = false ∧
    (∃ st1 st2,
      process_document fsEmpty st0 "c.txt" [docPlain] "t1" = Except.ok (true, st1) ∧
      process_document fsEmpty st1 "c.txt" [docPlain] "t2" = Except.ok (false, st2) ∧
      (recordsFor "c.txt" st2.store).length = (recordsFor "c.txt" st1.store).length) :=
  ⟨rfl, rfl, C3_idempotence fsEmpty st0 "c.txt" [docPlain] "t1" "t2" [] rfl rfl⟩

/-- Claim C4: on the replace path, `process_document` first removes every
store record whose `source_file` is the path — whatever old `file_hash` it
carries — and only then appends the new chunks: the final store is the
removal's result followed by the stamped insertions, the removal's result
holds no record for the path, and afterwards no record for the path carries
a fingerprint other than the new hash. -/
theorem C4_delete_before_insert (fs : FS) (st : MState) (file_path : String)
    (docs : List Doc) (now : String) (content : List Nat) (st' : MState)
    (hfs : fs file_path = some content)
    (hres : process_document fs st file_path docs now = Except.ok (true, st')) :
    st'.store = remove_existing_documents file_path st.store ++
      newRecords st.nextId (docs.map (stampDoc file_path (sha256hex content))) ∧
    (∀ r ∈ remove_existing_documents file_path st.store,
      r.doc.metadata.source_file ≠ some file_path) ∧
    (∀ r ∈ st'.store, r.doc.metadata.source_file = some file_path →
      r.doc.metadata.file_hash = some (sha256hex content)) := by
  have hst := process_document_ok_true fs st file_path docs now content st' hfs hres
  subst hst
  exact ⟨rfl, remove_existing_documents_no_source file_path st.store,
    replacedState_no_stale st file_path docs now _⟩

/-- Concrete instance of C4: replacing `"a.txt"` whose stale record carried
fingerprint `"H1"`. -/
theorem C4_witness :
    (replacedState stWith "a.txt" [docPlain] "t1" (sha256hex [])).store =
      remove_existing_documents "a.txt" stWith.store ++
      newRecords stWith.nextId ([docPlain].map (stampDoc "a.txt" (sha256hex []))) ∧
    (∀ r ∈ remove_existing_documents "a.txt" stWith.store,
      r.doc.metadata.source_file ≠ some "a.txt") ∧
    (∀ r ∈ (replacedState stWith "a.txt" [docPlain] "t1" (sha256hex [])).store,
      r.doc.metadata.source_file = some "a.txt" →
      r.doc.metadata.file_hash = some (sha256hex [])) :=
  C4_delete_before_insert fsEmpty stWith "a.txt" [docPlain] "t1" [] _ rfl
    (process_document_miss fsEmpty stWith "a.txt" [docPlain] "t1" [] rfl rfl)

/-- Claim C5: `process_document` with an empty chunk list on a new or changed
path is a valid call returning `True`: nothing is inserted (on a brand-new
path the store is left as it was), no error is raised, and the cache entry
records zero chunks. -/
theorem C5_empty_chunk_list (fs : FS) (st : MState) (file_path now : String)
    (content : List Nat)
    (hfs : fs file_path = some content)
    (hmiss : cacheHit st.processed_files file_path (sha256hex content) = false) :
    ∃ st', process_document fs st file_path [] now = Except.ok (true, st') ∧
      st'.store = remove_existing_documents file_path st.store ∧
      ((∀ r ∈ st.store, r.doc.metadata.source_file ≠ some file_path) →
        st'.store = st.store) ∧
      getEntry st'.processed_files file_path = some ⟨sha256hex content, 0, now⟩ := by
  refine ⟨replacedState st file_path [] now (sha256hex content),
    process_document_miss fs st file_path [] now content hfs hmiss, ?_, ?_,
    getEntry_setEntry_self _ _ _⟩
  · simp [replacedState, newRecords]
  · intro h
    simp [replacedState, newRecords, remove_existing_documents_of_absent file_path st.store h]

/-- Concrete instance of C5: `process_document("empty.txt", [])` on a fresh
manager. -/
theorem C5_witness :
    fsEmpty "empty.txt" = some [] ∧
    cacheHit st0.processed_files "empty.txt" (sha256hex []) = false ∧
    (∃ st', process_document fsEmpty st0 "empty.txt" [] "t1" = Except.ok (true, st') ∧
      st'.store = remove_existing_documents "empty.txt" st0.store ∧
      ((∀ r ∈ st0.store, r.doc.metadata.source_file ≠ some "empty.txt") →
        st'.store = st0.store) ∧
      getEntry st'.processed_files "empty.txt" = some ⟨sha256hex [], 0, "t1"⟩) :=
  ⟨rfl, rfl, C5_empty_chunk_list fsEmpty st0 "empty.txt" "t1" [] rfl rfl⟩

/-- Claim C6: `clear_all` succeeds from any state, even one with an empty
store; afterwards the store holds no records, the cache mapping is empty both
in memory and as persisted (a reload yields the empty map), and a subsequent
`process_document` on any readable path takes the first-time path, returning
`True`. -/
theorem C6_clear_all_total (st : MState) (fs : FS) (file_path now : String)
    (docs : List Doc) (content : List Nat)
    (hfs : fs file_path = some content) :
    (clear_all st).store = [] ∧
    (clear_all st).processed_files = [] ∧
    (clear_all st).cache_file = some (CacheFile.valid []) ∧
    load_cache (clear_all st).cache_file = Except.ok ([], some (CacheFile.valid [])) ∧
    ∃ st', process_document fs (clear_all st) file_path docs now = Except.ok (true, st') :=
  ⟨clear_all_store_nil st, rfl, rfl, rfl,
    replacedState (clear_all st) file_path docs now (sha256hex content),
    process_document_miss fs (clear_all st) file_path docs now content hfs rfl⟩

/-- Concrete instance of C6: clearing a state that held records, then
re-processing a previously known path. -/
theorem C6_witness :
    fsEmpty "a.txt" = some [] ∧
    ((clear_all stWith).store = [] ∧
      (clear_all stWith).processed_files = [] ∧
      (clear_all stWith).cache_file = some (CacheFile.valid []) ∧
      load_cache (clear_all stWith).cache_file = Except.ok ([], some (CacheFile.valid [])) ∧
      ∃ st', process_document fsEmpty (clear_all stWith) "a.txt" [docPlain] "t1" =
        Except.ok (true, st')) :=
  ⟨rfl, C6_clear_all_total stWith fsEmpty "a.txt" "t1" [docPlain] [] rfl⟩

/-- Claim C7: loading the cache index: an absent persisted file gives the
empty in-memory map and creates the file; a present but unparsable file
raises the corruption error to the caller and never yields a silently reset
cache; a parsable file loads as written. -/
theorem C7_load_cache (m : CacheMap) :
    load_cache none = Except.ok ([], some (CacheFile.valid [])) ∧
    load_cache (some CacheFile.corrupt) = Except.error CacheError.CacheCorruptionError ∧
    (∀ res, load_cache (some CacheFile.corrupt) ≠ Except.ok res) ∧
    load_cache (some (CacheFile.valid m)) = Except.ok (m, some (CacheFile.valid m)) :=
  ⟨rfl, rfl, fun res h => by simp [load_cache] at h, rfl⟩

/-- Concrete instance of C7: the corrupt file does not load as an empty
map. -/
theorem C7_witness :
    load_cache none = Except.ok ([], some (CacheFile.valid [])) ∧
    load_cache (some CacheFile.corrupt) ≠ Except.ok ([], some (CacheFile.valid [])) :=
  ⟨(C7_load_cache []).1, (C7_load_cache []).2.2.1 ([], some (CacheFile.valid []))⟩

/-- Claim C8: the fingerprint operation is deterministic — two files with
equal raw bytes hash equally — and the fingerprint is the 64-character
(256-bit) hex-encoded digest of the bytes, made of hex digits only. -/
theorem C8_fingerprint_deterministic (fs : FS) (p1 p2 : String) (b1 b2 : List Nat)
    (h1 : fs p1 = some b1) (h2 : fs p2 = some b2) (heq : b1 = b2) :
    get_file_hash fs p1 = get_file_hash fs p2 ∧
    get_file_hash fs p1 = Except.ok (sha256hex b1) ∧
    (sha256hex b1).length = 64 ∧
    ∀ c ∈ (sha256hex b1).data, c ∈ hexDigitChars := by
  subst heq
  exact ⟨by simp [get_file_hash, h1, h2], by simp [get_file_hash, h1],
    sha256hex_length b1, fun c hc => mem_sha256hex b1 c hc⟩

/-- Concrete instance of C8: two paths with identical (empty) contents. -/
theorem C8_witness :
    get_file_hash fsEmpty "a.txt" = get_file_hash fsEmpty "b.txt" ∧
    get_file_hash fsEmpty "a.txt" = Except.ok (sha256hex []) ∧
    (sha256hex []).length = 64 ∧
    ∀ c ∈ (sha256hex []).data, c ∈ hexDigitChars :=
  C8_fingerprint_deterministic fsEmpty "a.txt" "b.txt" [] [] rfl rfl rfl

/-- Claim C9: `get_file_info` is a pure read: it yields the cache record for
the path when one exists and nothing otherwise, and the manager state after
the call — cache mapping, persisted cache file, and store alike — is the
state before it. -/
theorem C9_get_file_info_pure (st : MState) (file_path : String) :
    (get_file_info st file_path).2 = st ∧
    (∀ r, getEntry st.processed_files file_path = some r →
      (get_file_info st file_path).1 = some r) ∧
    (getEntry st.processed_files file_path = none →
      (get_file_info st file_path).1 = none) :=
  ⟨rfl, fun _ hr => hr, fun hn => hn⟩

/-- Concrete instance of C9: a known and an unknown path. -/
theorem C9_witness :
    (get_file_info stHit "a.txt").2 = stHit ∧
    (get_file_info stHit "a.txt").1 = some ⟨sha256hex [], 0, "t0"⟩ ∧
    (get_file_info stHit "zzz").1 = none :=
  ⟨(C9_get_file_info_pure stHit "a.txt").1,
   (C9_get_file_info_pure stHit "a.txt").2.1 ⟨sha256hex [], 0, "t0"⟩ rfl,
   (C9_get_file_info_pure stHit "zzz").2.2 rfl⟩

/-- Claim C10: `_remove_existing_documents` invokes the store's delete only
with a non-empty id list: a missing `get()` result, a result lacking the ids
or the metadatas key, or a result holding no record for the path, all finish
as a no-op without a delete call. -/
theorem C10_delete_only_nonempty (file_path : String) :
    removeAction file_path none = RemoveAction.noop ∧
    (∀ mds, removeAction file_path (some ⟨none, mds⟩) = RemoveAction.noop) ∧
    (∀ ids, removeAction file_path (some ⟨ids, none⟩) = RemoveAction.noop) ∧
    (∀ ids mds, (∀ md ∈ mds, md.source_file ≠ some file_path) →
      removeAction file_path (some ⟨some ids, some mds⟩) = RemoveAction.noop) ∧
    (∀ result ids, removeAction file_path result = RemoveAction.delete ids → ids ≠ []) := by
  refine ⟨rfl, fun mds => rfl, fun ids => ?_, fun ids mds h => ?_, fun result ids h => ?_⟩
  · cases ids <;> rfl
  · simp [removeAction, idsToDelete_eq_nil_of_no_match file_path ids mds h]
  · rcases result with _ | ⟨i, m⟩
    · simp [removeAction] at h
    · rcases i with _ | i
      · simp [removeAction] at h
      · rcases m with _ | m
        · simp [removeAction] at h
        · simp only [removeAction] at h
          by_cases he : (idsToDelete file_path i m).isEmpty = true
          · rw [if_pos he] at h
            simp at h
          · rw [if_neg he] at h
            injection h with hh
            subst hh
            simpa [List.isEmpty_iff] using he

/-- Concrete instance of C10: an unrelated metadata row is left alone, and a
delete that does happen carries a non-empty id list. -/
theorem C10_witness :
    removeAction "a.txt" none = RemoveAction.noop ∧
    removeAction "a.txt" (some ⟨some [5], some [mdPlain]⟩) = RemoveAction.noop ∧
    ([0] : List Nat) ≠ [] :=
  ⟨(C10_delete_only_nonempty "a.txt").1,
   (C10_delete_only_nonempty "a.txt").2.2.2.1 [5] [mdPlain] (by simp [mdPlain]),
   (C10_delete_only_nonempty "a.txt").2.2.2.2
     (some ⟨some [0], some [recA.doc.metadata]⟩) [0] rfl⟩

end VectorStore
